import Mathlib

/-!
Shallow embedding of the weekly reminder script (main.py): roster loading
from the STUDENTS_DATA blob, the Calendly scheduled-events client, the
Monday-to-Friday week window, and the reconciliation loop that posts Slack
reminders. External HTTP traffic is passed in as explicit response data;
mutable counters become explicit state records.
-/

namespace AutoRemind

/-- Whitespace characters removed by the Python str.strip method. -/
def isPyWS (c : Char) : Bool :=
  c = ' ' || c = '\t' || c = '\n' || c = '\r' || c = '\x0b' || c = '\x0c'

/-- Remove leading and trailing whitespace from a character list. -/
def trimChars (l : List Char) : List Char :=
  ((l.dropWhile isPyWS).reverse.dropWhile isPyWS).reverse

/-- Python str.strip on strings. -/
def pyStrip (s : String) : String := ⟨trimChars s.data⟩

/-- Lower-case one character (ASCII range, as all inputs here are ASCII). -/
def lowerChar (c : Char) : Char :=
  if 65 ≤ c.toNat ∧ c.toNat ≤ 90 then Char.ofNat (c.toNat + 32) else c

/-- Python str.lower on strings. -/
def pyLower (s : String) : String := ⟨s.data.map lowerChar⟩

/-- Replace each two-character escape sequence backslash-n by a real
newline, scanning left to right without overlap, exactly as the
str.replace call on STUDENTS_DATA does. -/
def replEscapes : List Char → List Char
  | [] => []
  | '\\' :: 'n' :: rest => '\n' :: replEscapes rest
  | c :: rest => c :: replEscapes rest

/-- The replace of escaped newlines applied to a whole blob. -/
def unescape (s : String) : String := ⟨replEscapes s.data⟩

/-- Split a character list on a separator character. -/
def splitChar : List Char → Char → List (List Char)
  | [], _ => [[]]
  | c :: cs, sep =>
    if c = sep then [] :: splitChar cs sep
    else
      match splitChar cs sep with
      | [] => [[c]]
      | h :: t => (c :: h) :: t

/-- Split a string on a separator character. -/
def splitStr (s : String) (sep : Char) : List String :=
  (splitChar s.data sep).map (fun l => ⟨l⟩)

/-- Insert or overwrite a key in an association list, keeping the
first-insertion position, as assignment into a Python dict does. -/
def dictInsert {α β : Type} [DecidableEq α] : List (α × β) → α → β → List (α × β)
  | [], k, v => [(k, v)]
  | (k1, v1) :: t, k, v => if k1 = k then (k, v) :: t else (k1, v1) :: dictInsert t k v

/-- First-match lookup in an association list. -/
def dictLookup {α β : Type} [DecidableEq α] : List (α × β) → α → Option β
  | [], _ => none
  | (k1, v1) :: t, k => if k1 = k then some v1 else dictLookup t k

/-- Value of the last pair carrying a given key, if any. -/
def lastVal {α β : Type} [DecidableEq α] : List (α × β) → α → Option β
  | [], _ => none
  | p :: t, k =>
    match lastVal t k with
    | some v => some v
    | none => if p.1 = k then some p.2 else none

/-- A parsed CSV table: the header field names and the raw data rows.
Blank lines among the data are skipped, as csv.DictReader does. -/
structure CsvTable where
  header : List String
  rows : List (List String)
deriving DecidableEq

/-- Parse the blob into header and data rows the way csv.DictReader
sees them. -/
def parseCsv (data : String) : CsvTable :=
  match splitStr data '\n' with
  | [] => ⟨[], []⟩
  | h :: t => ⟨splitStr h ',', (t.filter (fun l => l ≠ "")).map (fun l => splitStr l ',')⟩

/-- A data row as csv.DictReader presents it: each header field paired
with its value, short rows padded with none (the restval default).
Values beyond the header length are not reachable by field name. -/
def rowDict (hdr : List String) (row : List String) : List (String × Option String) :=
  hdr.zip (row.map some ++ List.replicate (hdr.length - row.length) none)

/-- Value of a named field of a row: outer none when the column is absent
from the header (a KeyError on access), inner none when the row was too
short (an AttributeError once .strip is called on it). -/
def fieldVal (hdr : List String) (row : List String) (f : String) : Option (Option String) :=
  dictLookup (rowDict hdr row) f

/-- The per-student record built by load_students. -/
structure StudentInfo where
  email : String
  slack_id : Option String
deriving DecidableEq

/-- The roster mapping, keyed by the value of the name column. A missing
name value is the Python value None, which is a legal dict key, hence the
Option String key type. Insertion order is preserved. -/
abbrev Roster := List (Option String × StudentInfo)

/-- The slack_id component of a row: when the column is absent from the
header the code stores None; when it is present, a padded missing value
raises in .strip, and otherwise the stripped value is stored. -/
def slackField (hdr : List String) (row : List String) : Except Unit (Option String) :=
  if "slack_id" ∈ hdr then
    match fieldVal hdr row "slack_id" with
    | some (some sv) => .ok (some (pyStrip sv))
    | _ => .error ()
  else .ok none

/-- One iteration of the load_students row loop: build the record for the
row and store it under the name value, or raise (a missing required
column, or a padded missing value hit by .strip). -/
def processRow (hdr : List String) (st : Roster) (row : List String) : Except Unit Roster :=
  match fieldVal hdr row "name" with
  | none => .error ()
  | some nameV =>
    match fieldVal hdr row "email" with
    | none => .error ()
    | some none => .error ()
    | some (some ev) =>
      match slackField hdr row with
      | .error _ => .error ()
      | .ok sl => .ok (dictInsert st nameV ⟨pyLower (pyStrip ev), sl⟩)

/-- The row loop inside the try block of load_students: the first raising
row aborts the whole loop, and the students collected so far are what the
function returns. -/
def parseRows (hdr : List String) : Roster → List (List String) → Roster
  | st, [] => st
  | st, r :: rs =>
    match processRow hdr st r with
    | .ok st2 => parseRows hdr st2 rs
    | .error _ => st

/-- load_students as a function of the STUDENTS_DATA variable: unescape
the blob, return the empty mapping when the data is empty, otherwise
parse rows with the abort-on-first-error semantics of the surrounding
try block. The escape replacement is applied twice, as in the source. -/
def load_students (envData : Option String) : Roster :=
  let csv_data := unescape (envData.getD "")
  if csv_data = "" then []
  else
    let t := parseCsv (unescape csv_data)
    parseRows t.header [] t.rows

/-- A scheduled event as returned by the events request. -/
structure Event where
  uri : String
deriving DecidableEq

/-- The response to the scheduled-events request. -/
structure EventsResponse where
  status : Nat
  events : List Event

/-- The response to an invitees request: status and invitee emails. -/
structure InvResponse where
  status : Nat
  invitees : List String

/-- Last segment of a URI, as uri.split and a final index compute it. -/
def lastSegment (s : String) : String :=
  match (splitStr s '/').getLast? with
  | some x => x
  | none => ""

/-- One iteration of the event loop: count the invitees call, skip the
event entirely on a non-success status, otherwise add every lower-cased
invitee email to the set. -/
def eventStep (ir : String → InvResponse) (acc : Finset String × Nat) (ev : Event) :
    Finset String × Nat :=
  let r := ir (lastSegment ev.uri)
  let calls := acc.2 + 1
  if r.status ≠ 200 then (acc.1, calls)
  else (r.invitees.foldl (fun s e => insert (pyLower e) s) acc.1, calls)

/-- get_scheduled_students as a function of the upstream responses: the
events request is issued first (one call); a non-success status returns
the empty set with the call count so far; otherwise the event list is
folded, fetching invitees per event. -/
def get_scheduled_students (er : EventsResponse) (ir : String → InvResponse) :
    Finset String × Nat :=
  if er.status ≠ 200 then (∅, 1)
  else er.events.foldl (eventStep ir) (∅, 1)

/-- Observable state of notify_missing_students: the two counters the
code keeps, and the list of chat messages posted as (channel, text). -/
structure NotifyState where
  notifications_sent : Nat
  students_already_scheduled : Nat
  msgs : List (String × String)
deriving DecidableEq

/-- How a Python dict key prints inside an f-string: None prints as the
four-letter text None. -/
def nameDisp : Option String → String
  | some s => s
  | none => "None"

/-- The fixed reminder text for a student name. -/
def reminderText (nm : Option String) : String :=
  "Hey " ++ nameDisp nm ++
    ", I noticed you haven\x27t scheduled a meeting with me for this week. Please book a slot here: https://calendly.com/romanibanez-alex"

/-- Python falsiness of an optional string: None and the empty string. -/
def falsy : Option String → Bool
  | none => true
  | some s => s = ""

/-- One iteration of the notify_missing_students loop over a roster
entry: a scheduled email only bumps the already-scheduled counter; a
falsy slack_id skips the entry with no state change; otherwise one chat
message is posted and the sent counter bumps when the response is ok. -/
def processStudent (sched : Finset String) (notifier : String → Bool)
    (st : NotifyState) (entry : Option String × StudentInfo) : NotifyState :=
  if entry.2.email ∉ sched then
    match entry.2.slack_id with
    | none => st
    | some sid =>
      if sid = "" then st
      else
        { notifications_sent :=
            if notifier sid then st.notifications_sent + 1 else st.notifications_sent,
          students_already_scheduled := st.students_already_scheduled,
          msgs := st.msgs ++ [(sid, reminderText entry.1)] }
  else
    { notifications_sent := st.notifications_sent,
      students_already_scheduled := st.students_already_scheduled + 1,
      msgs := st.msgs }

/-- The reconciliation loop of notify_missing_students, over the roster
in insertion order, starting from zeroed counters. -/
def notify_missing_students (roster : Roster) (sched : Finset String)
    (notifier : String → Bool) : NotifyState :=
  roster.foldl (processStudent sched notifier) ⟨0, 0, []⟩

/-- The two counter variables of notify_missing_students, the only
numeric state the function maintains or reports. -/
def codeCounters (st : NotifyState) : Nat × Nat :=
  (st.notifications_sent, st.students_already_scheduled)

/-- The operation as the specification words it, for comparison: a triple
of counters sent, already_scheduled and skipped_no_identity, the third
bumped exactly when a not-scheduled entry has an absent chat identity. -/
def specStep (sched : Finset String) (notifier : String → Bool)
    (acc : Nat × Nat × Nat) (entry : Option String × StudentInfo) : Nat × Nat × Nat :=
  if entry.2.email ∈ sched then (acc.1, acc.2.1 + 1, acc.2.2)
  else if falsy entry.2.slack_id then (acc.1, acc.2.1, acc.2.2 + 1)
  else if notifier ((entry.2.slack_id).getD "") then (acc.1 + 1, acc.2.1, acc.2.2)
  else acc

/-- The counter triple the specification says notify_missing returns. -/
def notify_missing_spec (roster : Roster) (sched : Finset String)
    (notifier : String → Bool) : Nat × Nat × Nat :=
  roster.foldl (specStep sched notifier) (0, 0, 0)

/-- The environment variables the script reads at startup. -/
structure Env where
  calendly_token : Option String
  calendly_user_uri : Option String
  slack_bot_token : Option String
  slack_signing_secret : Option String
  students_data : Option String

/-- Module-level startup: the four token presence checks, the Slack app
construction, and the roster load; each failure exits with code 1. -/
def startup (env : Env) (slackInitOk : Bool) : Except Nat Roster :=
  if falsy env.calendly_token then .error 1
  else if falsy env.calendly_user_uri then .error 1
  else if falsy env.slack_bot_token then .error 1
  else if falsy env.slack_signing_secret then .error 1
  else if !slackInitOk then .error 1
  else
    let students := load_students env.students_data
    if students = [] then .error 1 else .ok students

/-- Outbound HTTP calls issued during startup: the four token presence
checks make none, but once they pass, the slack_bolt App constructor
performs one token-verification request (auth.test) — before the roster
emptiness check runs. -/
def startupCalls (env : Env) : Nat :=
  if falsy env.calendly_token then 0
  else if falsy env.calendly_user_uri then 0
  else if falsy env.slack_bot_token then 0
  else if falsy env.slack_signing_secret then 0
  else 1

/-- The whole-process run: startup, then one notification pass. The
result records the exit code, the number of outbound HTTP calls made
(the App-init token verification, Calendly requests and chat posts), and
the final notify state. -/
def runMain (env : Env) (slackInitOk : Bool) (er : EventsResponse)
    (ir : String → InvResponse) (notifier : String → Bool) :
    Nat × Nat × Option NotifyState :=
  match startup env slackInitOk with
  | .error c => (c, startupCalls env, none)
  | .ok students =>
    let res := get_scheduled_students er ir
    let st := notify_missing_students students res.1 notifier
    (0, startupCalls env + res.2 + st.msgs.length, some st)

/-- A UTC timestamp: day number since the epoch (1970-01-01, a Thursday)
and the time-of-day fields. -/
structure DateTime where
  day : Int
  hour : Nat
  minute : Nat
  second : Nat
  usec : Nat
deriving DecidableEq

/-- Python datetime.weekday: 0 for Monday through 6 for Sunday. -/
def weekday (d : Int) : Int := (d + 3) % 7

/-- The week window computed inside get_scheduled_students: subtract the
weekday from today, zero the time fields for the start; add four days and
set 23:59:59.999999 for the end. -/
def getWindow (now : DateTime) : DateTime × DateTime :=
  let start_of_week : DateTime := { now with day := now.day - weekday now.day }
  let end_of_week : DateTime := { start_of_week with day := start_of_week.day + 4 }
  ({ start_of_week with hour := 0, minute := 0, second := 0, usec := 0 },
   { end_of_week with hour := 23, minute := 59, second := 59, usec := 999999 })

/-- The name-column key under which a row is stored: the value of the
name field, with a padded missing value giving the None key. -/
def rowKey (hdr : List String) (row : List String) : Option String :=
  match fieldVal hdr row "name" with
  | some v => v
  | none => none

/-- The record the specification says a well-formed row produces: the
email stripped and lower-cased, and the stripped slack value when the
column is present, else an absent identity. -/
def toInfo (hdr : List String) (row : List String) : StudentInfo :=
  { email :=
      match fieldVal hdr row "email" with
      | some (some v) => pyLower (pyStrip v)
      | _ => "",
    slack_id :=
      if "slack_id" ∈ hdr then
        match fieldVal hdr row "slack_id" with
        | some (some v) => some (pyStrip v)
        | _ => none
      else none }

/-- A row is well formed when reading it raises nothing: the name column
exists, the email value is present, and the slack value is present
whenever the header has a slack_id column. -/
def wellFormedRow (hdr : List String) (row : List String) : Bool :=
  (fieldVal hdr row "name").isSome &&
  (match fieldVal hdr row "email" with
   | some (some _) => true
   | _ => false) &&
  (if "slack_id" ∈ hdr then
     (match fieldVal hdr row "slack_id" with
      | some (some _) => true
      | _ => false)
   else true)

/-! ## Helper lemmas -/

theorem processRow_ok (hdr : List String) (st : Roster) (row : List String)
    (h : wellFormedRow hdr row = true) :
    processRow hdr st row = .ok (dictInsert st (rowKey hdr row) (toInfo hdr row)) := by
  unfold wellFormedRow at h
  rw [Bool.and_eq_true, Bool.and_eq_true] at h
  obtain ⟨⟨hn, he⟩, hsl⟩ := h
  cases hnv : fieldVal hdr row "name" with
  | none => rw [hnv] at hn; simp at hn
  | some nv =>
  cases hev : fieldVal hdr row "email" with
  | none => rw [hev] at he; simp at he
  | some evo =>
  cases evo with
  | none => rw [hev] at he; simp at he
  | some ev =>
    unfold processRow rowKey toInfo slackField
    by_cases hs : "slack_id" ∈ hdr
    · rw [if_pos hs] at hsl
      cases hsv : fieldVal hdr row "slack_id" with
      | none => rw [hsv] at hsl; simp at hsl
      | some svo =>
        cases svo with
        | none => rw [hsv] at hsl; simp at hsl
        | some sv => simp [hnv, hev, hsv, hs]
    · simp [hnv, hev, hs]

theorem processRow_error (hdr : List String) (st : Roster) (row : List String)
    (h : wellFormedRow hdr row = false) :
    processRow hdr st row = .error () := by
  unfold wellFormedRow at h
  unfold processRow
  cases hnv : fieldVal hdr row "name" with
  | none => simp [hnv]
  | some nv =>
  cases hev : fieldVal hdr row "email" with
  | none => simp [hnv, hev]
  | some evo =>
  cases evo with
  | none => simp [hnv, hev]
  | some ev =>
    rw [hnv, hev] at h
    simp only [Option.isSome_some, Bool.true_and] at h
    unfold slackField
    by_cases hs : "slack_id" ∈ hdr
    · rw [if_pos hs] at h
      cases hsv : fieldVal hdr row "slack_id" with
      | none => simp [hnv, hev, hs, hsv]
      | some svo =>
        cases svo with
        | none => simp [hnv, hev, hs, hsv]
        | some sv => rw [hsv] at h; simp at h
    · rw [if_neg hs] at h
      simp at h

theorem parseRows_all_ok (hdr : List String) (rows : List (List String)) (st : Roster)
    (h : ∀ r ∈ rows, wellFormedRow hdr r = true) :
    parseRows hdr st rows =
      rows.foldl (fun m r => dictInsert m (rowKey hdr r) (toInfo hdr r)) st := by
  induction rows generalizing st with
  | nil => rfl
  | cons r rs ih =>
    have heq := processRow_ok hdr st r (h r (List.mem_cons_self r rs))
    simp only [List.foldl_cons]
    unfold parseRows
    rw [heq]
    exact ih _ (fun r2 hr2 => h r2 (List.mem_cons_of_mem r hr2))

theorem parseRows_stops (hdr : List String) (good : List (List String))
    (bad : List String) (rest : List (List String)) (st : Roster)
    (hwf : ∀ r ∈ good, wellFormedRow hdr r = true)
    (hbad : wellFormedRow hdr bad = false) :
    parseRows hdr st (good ++ bad :: rest) = parseRows hdr st good := by
  induction good generalizing st with
  | nil =>
    simp only [List.nil_append]
    unfold parseRows
    rw [processRow_error hdr st bad hbad]
  | cons g gs ih =>
    have heq := processRow_ok hdr st g (hwf g (List.mem_cons_self g gs))
    simp only [List.cons_append]
    unfold parseRows
    rw [heq]
    exact ih _ (fun r hr => hwf r (List.mem_cons_of_mem g hr))

theorem dictLookup_dictInsert_self {α β : Type} [DecidableEq α]
    (m : List (α × β)) (k : α) (v : β) :
    dictLookup (dictInsert m k v) k = some v := by
  induction m with
  | nil => simp [dictInsert, dictLookup]
  | cons p t ih =>
    rcases p with ⟨k1, v1⟩
    simp only [dictInsert]
    by_cases h : k1 = k
    · rw [if_pos h]
      simp [dictLookup]
    · rw [if_neg h]
      simp only [dictLookup]
      rw [if_neg h]
      exact ih

theorem dictLookup_dictInsert_ne {α β : Type} [DecidableEq α]
    (m : List (α × β)) (k k2 : α) (v : β) (h : k2 ≠ k) :
    dictLookup (dictInsert m k v) k2 = dictLookup m k2 := by
  induction m with
  | nil =>
    simp only [dictInsert, dictLookup]
    rw [if_neg (fun hh => h hh.symm)]
  | cons p t ih =>
    rcases p with ⟨k1, v1⟩
    simp only [dictInsert]
    by_cases h1 : k1 = k
    · rw [if_pos h1]
      simp only [dictLookup]
      rw [if_neg (fun hh => h hh.symm), if_neg (fun hh => h (hh.symm.trans h1))]
    · rw [if_neg h1]
      simp only [dictLookup]
      by_cases h2 : k1 = k2
      · rw [if_pos h2, if_pos h2]
      · rw [if_neg h2, if_neg h2]
        exact ih

theorem lastVal_eq_none {α β : Type} [DecidableEq α] (l : List (α × β)) (k : α)
    (h : k ∉ l.map Prod.fst) : lastVal l k = none := by
  induction l with
  | nil => rfl
  | cons p t ih =>
    simp only [List.map_cons, List.mem_cons] at h
    push_neg at h
    unfold lastVal
    rw [ih h.2]
    rw [if_neg (fun hh => h.1 hh.symm)]

theorem lastVal_of_nodup {α β : Type} [DecidableEq α] (l : List (α × β)) (k : α) (v : β)
    (hnd : (l.map Prod.fst).Nodup) (hm : (k, v) ∈ l) : lastVal l k = some v := by
  induction l with
  | nil => cases hm
  | cons p t ih =>
    simp only [List.map_cons, List.nodup_cons] at hnd
    rcases List.mem_cons.mp hm with he | ht
    · subst he
      unfold lastVal
      rw [lastVal_eq_none t k hnd.1]
      simp
    · unfold lastVal
      rw [ih hnd.2 ht]

theorem dictLookup_foldl_insert {α β : Type} [DecidableEq α] (entries : List (α × β))
    (m : List (α × β)) (k : α) :
    dictLookup (entries.foldl (fun acc p => dictInsert acc p.1 p.2) m) k =
      match lastVal entries k with
      | some v => some v
      | none => dictLookup m k := by
  induction entries generalizing m with
  | nil => rfl
  | cons p t ih =>
    simp only [List.foldl_cons]
    rw [ih]
    cases hl : lastVal t k with
    | some v => simp only [lastVal, hl]
    | none =>
      simp only [lastVal, hl]
      by_cases h : p.1 = k
      · rw [if_pos h, ← h]
        exact dictLookup_dictInsert_self m p.1 p.2
      · rw [if_neg h]
        exact dictLookup_dictInsert_ne m p.1 k p.2 (fun hh => h hh.symm)

theorem mem_keys_dictInsert {α β : Type} [DecidableEq α] (m : List (α × β))
    (k a : α) (v : β) :
    a ∈ (dictInsert m k v).map Prod.fst ↔ a = k ∨ a ∈ m.map Prod.fst := by
  induction m with
  | nil => simp [dictInsert]
  | cons p t ih =>
    rcases p with ⟨k1, v1⟩
    simp only [dictInsert]
    by_cases h : k1 = k
    · rw [if_pos h]
      subst h
      simp only [List.map_cons, List.mem_cons]
      tauto
    · rw [if_neg h]
      simp only [List.map_cons, List.mem_cons, ih]
      tauto

theorem nodup_keys_dictInsert {α β : Type} [DecidableEq α] (m : List (α × β))
    (k : α) (v : β) (h : (m.map Prod.fst).Nodup) :
    ((dictInsert m k v).map Prod.fst).Nodup := by
  induction m with
  | nil => simp [dictInsert]
  | cons p t ih =>
    rcases p with ⟨k1, v1⟩
    simp only [List.map_cons, List.nodup_cons] at h
    simp only [dictInsert]
    by_cases hk : k1 = k
    · rw [if_pos hk]
      subst hk
      simp only [List.map_cons, List.nodup_cons]
      exact ⟨h.1, h.2⟩
    · rw [if_neg hk]
      simp only [List.map_cons, List.nodup_cons]
      refine ⟨?_, ih h.2⟩
      rw [mem_keys_dictInsert]
      push_neg
      exact ⟨hk, h.1⟩

theorem mem_keys_foldl_insert {α β : Type} [DecidableEq α]
    (entries m : List (α × β)) (a : α) :
    a ∈ (entries.foldl (fun acc p => dictInsert acc p.1 p.2) m).map Prod.fst ↔
      a ∈ m.map Prod.fst ∨ a ∈ entries.map Prod.fst := by
  induction entries generalizing m with
  | nil => simp
  | cons p t ih =>
    simp only [List.foldl_cons, ih, mem_keys_dictInsert, List.map_cons, List.mem_cons]
    tauto

theorem nodup_keys_foldl_insert {α β : Type} [DecidableEq α]
    (entries m : List (α × β)) (h : (m.map Prod.fst).Nodup) :
    ((entries.foldl (fun acc p => dictInsert acc p.1 p.2) m).map Prod.fst).Nodup := by
  induction entries generalizing m with
  | nil => exact h
  | cons p t ih => exact ih _ (nodup_keys_dictInsert m p.1 p.2 h)

theorem length_foldl_insert_nil {α β : Type} [DecidableEq α] (entries : List (α × β)) :
    (entries.foldl (fun acc p => dictInsert acc p.1 p.2) []).length =
      (entries.map Prod.fst).toFinset.card := by
  have hnd : ((entries.foldl (fun acc p => dictInsert acc p.1 p.2) []).map Prod.fst).Nodup :=
    nodup_keys_foldl_insert entries [] (by simp)
  have h1 : (entries.foldl (fun acc p => dictInsert acc p.1 p.2) []).length =
      ((entries.foldl (fun acc p => dictInsert acc p.1 p.2) []).map Prod.fst).length := by
    simp
  have h2 := List.toFinset_card_of_nodup hnd
  have h3 : ((entries.foldl (fun acc p => dictInsert acc p.1 p.2) []).map Prod.fst).toFinset =
      (entries.map Prod.fst).toFinset := by
    ext a
    simp only [List.mem_toFinset]
    rw [mem_keys_foldl_insert]
    simp
  rw [h1, ← h2, h3]

theorem dedup_length_lt {α : Type} [DecidableEq α] (l : List α) (h : ¬ l.Nodup) :
    l.dedup.length < l.length := by
  rcases Nat.lt_or_ge l.dedup.length l.length with hlt | hge
  · exact hlt
  · exfalso
    have hsub := List.dedup_sublist l
    have heq : l.dedup.length = l.length := le_antisymm hsub.length_le hge
    have hdl := hsub.eq_of_length heq
    exact h (hdl ▸ l.nodup_dedup)

theorem load_students_eq_parse (blob : String) (hdr : List String)
    (rows : List (List String)) (hne : unescape blob ≠ "")
    (hp : parseCsv (unescape (unescape blob)) = ⟨hdr, rows⟩) :
    load_students (some blob) = parseRows hdr [] rows := by
  unfold load_students
  rw [Option.getD_some]
  rw [if_neg hne]
  rw [hp]

/-! ## Helper lemmas for the notify loop -/

theorem processStudent_of_mem (sched : Finset String) (ntf : String → Bool)
    (st : NotifyState) (k : Option String) (info : StudentInfo)
    (h : info.email ∈ sched) :
    processStudent sched ntf st (k, info) =
      { notifications_sent := st.notifications_sent,
        students_already_scheduled := st.students_already_scheduled + 1,
        msgs := st.msgs } := by
  unfold processStudent
  rw [if_neg (not_not_intro h)]

theorem processStudent_no_slack (sched : Finset String) (ntf : String → Bool)
    (st : NotifyState) (k : Option String) (info : StudentInfo)
    (h1 : info.email ∉ sched) (h2 : falsy info.slack_id = true) :
    processStudent sched ntf st (k, info) = st := by
  unfold processStudent
  rw [if_pos h1]
  cases hs : info.slack_id with
  | none => rfl
  | some sid =>
    have he : sid = "" := by
      rw [hs] at h2
      simpa [falsy] using h2
    simp [he]

theorem processStudent_sends (sched : Finset String) (ntf : String → Bool)
    (st : NotifyState) (k : Option String) (info : StudentInfo) (sid : String)
    (h1 : info.email ∉ sched) (h2 : info.slack_id = some sid) (h3 : sid ≠ "") :
    processStudent sched ntf st (k, info) =
      { notifications_sent :=
          if ntf sid then st.notifications_sent + 1 else st.notifications_sent,
        students_already_scheduled := st.students_already_scheduled,
        msgs := st.msgs ++ [(sid, reminderText k)] } := by
  unfold processStudent
  rw [if_pos h1, h2]
  simp [h3]

theorem msgs_mono (sched : Finset String) (ntf : String → Bool) (l : Roster)
    (st : NotifyState) (m : String × String) (h : m ∈ st.msgs) :
    m ∈ (l.foldl (processStudent sched ntf) st).msgs := by
  induction l generalizing st with
  | nil => exact h
  | cons e t ih =>
    rcases e with ⟨k, info⟩
    apply ih
    by_cases h1 : info.email ∈ sched
    · rw [processStudent_of_mem sched ntf st k info h1]
      exact h
    · cases hs : info.slack_id with
      | none =>
        rw [processStudent_no_slack sched ntf st k info h1 (by rw [hs]; rfl)]
        exact h
      | some sid =>
        by_cases h2 : sid = ""
        · rw [processStudent_no_slack sched ntf st k info h1 (by rw [hs, h2]; rfl)]
          exact h
        · rw [processStudent_sends sched ntf st k info sid h1 hs h2]
          exact List.mem_append_left _ h

theorem notify_msg_of_entry (roster : Roster) (sched : Finset String)
    (ntf : String → Bool) (k : Option String) (info : StudentInfo) (sid : String)
    (hmem : (k, info) ∈ roster) (hnot : info.email ∉ sched)
    (hsid : info.slack_id = some sid) (hne : sid ≠ "") (st : NotifyState) :
    (sid, reminderText k) ∈ (roster.foldl (processStudent sched ntf) st).msgs := by
  induction roster generalizing st with
  | nil => cases hmem
  | cons e t ih =>
    rcases List.mem_cons.mp hmem with he | ht
    · subst he
      simp only [List.foldl_cons]
      apply msgs_mono
      rw [processStudent_sends sched ntf st k info sid hnot hsid hne]
      simp
    · exact ih ht _

theorem mem_foldl_insert_lower (l : List String) (acc : Finset String) (x : String) :
    x ∈ l.foldl (fun s e => insert (pyLower e) s) acc ↔
      x ∈ acc ∨ ∃ e ∈ l, pyLower e = x := by
  induction l generalizing acc with
  | nil => simp
  | cons e t ih =>
    simp only [List.foldl_cons, ih, Finset.mem_insert]
    constructor
    · rintro ((h | h) | h)
      · exact Or.inr ⟨e, List.mem_cons_self e t, h.symm⟩
      · exact Or.inl h
      · rcases h with ⟨e2, he2, hx⟩
        exact Or.inr ⟨e2, List.mem_cons_of_mem e he2, hx⟩
    · rintro (h | ⟨e2, he2, hx⟩)
      · exact Or.inl (Or.inr h)
      · rcases List.mem_cons.mp he2 with he | he
        · subst he
          exact Or.inl (Or.inl hx.symm)
        · exact Or.inr ⟨e2, he, hx⟩

theorem mem_eventStep_foldl (ir : String → InvResponse) (l : List Event)
    (acc : Finset String) (n : Nat) (x : String) :
    x ∈ (l.foldl (eventStep ir) (acc, n)).1 ↔
      x ∈ acc ∨ ∃ ev ∈ l, (ir (lastSegment ev.uri)).status = 200 ∧
        ∃ e ∈ (ir (lastSegment ev.uri)).invitees, pyLower e = x := by
  induction l generalizing acc n with
  | nil => simp
  | cons ev t ih =>
    simp only [List.foldl_cons]
    by_cases h : (ir (lastSegment ev.uri)).status = 200
    · rw [show eventStep ir (acc, n) ev =
          ((ir (lastSegment ev.uri)).invitees.foldl (fun s e => insert (pyLower e) s) acc,
            n + 1) from by simp [eventStep, h]]
      rw [ih, mem_foldl_insert_lower]
      constructor
      · rintro ((hx | ⟨e, he, hx⟩) | ⟨ev2, hev2, hok, e, he, hx⟩)
        · exact Or.inl hx
        · exact Or.inr ⟨ev, List.mem_cons_self ev t, h, e, he, hx⟩
        · exact Or.inr ⟨ev2, List.mem_cons_of_mem ev hev2, hok, e, he, hx⟩
      · rintro (hx | ⟨ev2, hev2, hok, e, he, hx⟩)
        · exact Or.inl (Or.inl hx)
        · rcases List.mem_cons.mp hev2 with hev | hev
          · subst hev
            exact Or.inl (Or.inr ⟨e, he, hx⟩)
          · exact Or.inr ⟨ev2, hev, hok, e, he, hx⟩
    · rw [show eventStep ir (acc, n) ev = (acc, n + 1) from by simp [eventStep, h]]
      rw [ih]
      constructor
      · rintro (hx | ⟨ev2, hev2, hok, e, he, hx⟩)
        · exact Or.inl hx
        · exact Or.inr ⟨ev2, List.mem_cons_of_mem ev hev2, hok, e, he, hx⟩
      · rintro (hx | ⟨ev2, hev2, hok, e, he, hx⟩)
        · exact Or.inl hx
        · rcases List.mem_cons.mp hev2 with hev | hev
          · subst hev
            exact absurd hok h
          · exact Or.inr ⟨ev2, hev, hok, e, he, hx⟩

theorem mem_get_scheduled_students (er : EventsResponse) (ir : String → InvResponse)
    (x : String) :
    x ∈ (get_scheduled_students er ir).1 ↔
      er.status = 200 ∧ ∃ ev ∈ er.events, (ir (lastSegment ev.uri)).status = 200 ∧
        ∃ e ∈ (ir (lastSegment ev.uri)).invitees, pyLower e = x := by
  unfold get_scheduled_students
  by_cases h : er.status = 200
  · rw [if_neg (by simp [h])]
    rw [mem_eventStep_foldl]
    simp [h]
  · rw [if_pos h]
    simp [h]

/-! ## Claim theorems -/

/-- C4: for every current time, the window start is the most recent Monday
with the time zeroed, and the window end is that Monday plus four days (a
Friday) at 23:59:59.999999; a Wednesday now gives that week, as the
conjuncts instantiate. -/
theorem week_window_monday_to_friday (now : DateTime) :
    weekday (getWindow now).1.day = 0 ∧
    (getWindow now).1.day = now.day - weekday now.day ∧
    0 ≤ weekday now.day ∧ weekday now.day < 7 ∧
    (getWindow now).1.hour = 0 ∧ (getWindow now).1.minute = 0 ∧
    (getWindow now).1.second = 0 ∧ (getWindow now).1.usec = 0 ∧
    (getWindow now).2.day = (getWindow now).1.day + 4 ∧
    weekday (getWindow now).2.day = 4 ∧
    (getWindow now).2.hour = 23 ∧ (getWindow now).2.minute = 59 ∧
    (getWindow now).2.second = 59 ∧ (getWindow now).2.usec = 999999 := by
  dsimp only [getWindow, weekday]
  omega

/-- C1: a roster entry whose email is a member of scheduled_emails only
bumps the already-scheduled counter: no message is posted and no other
part of the state changes. -/
theorem scheduled_entry_already_counted (sched : Finset String)
    (ntf : String → Bool) (st : NotifyState) (k : Option String)
    (info : StudentInfo) (h : info.email ∈ sched) :
    processStudent sched ntf st (k, info) =
      { notifications_sent := st.notifications_sent,
        students_already_scheduled := st.students_already_scheduled + 1,
        msgs := st.msgs } :=
  processStudent_of_mem sched ntf st k info h

theorem scheduled_entry_already_counted_witness :
    ("a@x.com" ∈ ({"a@x.com"} : Finset String)) ∧
    processStudent {"a@x.com"} (fun _ => true) ⟨0, 0, []⟩
        (some "A", ⟨"a@x.com", some "U1"⟩) =
      { notifications_sent := 0, students_already_scheduled := 1, msgs := [] } :=
  ⟨by decide,
    scheduled_entry_already_counted {"a@x.com"} (fun _ => true) ⟨0, 0, []⟩
      (some "A") ⟨"a@x.com", some "U1"⟩ (by decide)⟩

/-- C3: a non-success status on the events request makes
get_scheduled_students return the empty set with one call counted, and the
run then posts a reminder to every roster entry with a usable slack id. -/
theorem events_failure_gives_empty_and_reminders
    (er : EventsResponse) (ir : String → InvResponse) (roster : Roster)
    (ntf : String → Bool) (h : er.status ≠ 200)
    (k : Option String) (info : StudentInfo) (sid : String)
    (hmem : (k, info) ∈ roster) (hsid : info.slack_id = some sid) (hne : sid ≠ "") :
    get_scheduled_students er ir = (∅, 1) ∧
    (sid, reminderText k) ∈
      (notify_missing_students roster (get_scheduled_students er ir).1 ntf).msgs := by
  have hg : get_scheduled_students er ir = (∅, 1) := by
    unfold get_scheduled_students
    rw [if_pos h]
  refine ⟨hg, ?_⟩
  rw [hg]
  exact notify_msg_of_entry roster ∅ ntf k info sid hmem (by simp) hsid hne _

theorem events_failure_gives_empty_and_reminders_witness :
    get_scheduled_students ⟨500, []⟩ (fun _ => ⟨200, []⟩) = (∅, 1) ∧
    ("U2", reminderText (some "Carol")) ∈
      (notify_missing_students [(some "Carol", ⟨"carol@x.com", some "U2"⟩)]
        (get_scheduled_students ⟨500, []⟩ (fun _ => ⟨200, []⟩)).1 (fun _ => true)).msgs :=
  events_failure_gives_empty_and_reminders ⟨500, []⟩ (fun _ => ⟨200, []⟩)
    [(some "Carol", ⟨"carol@x.com", some "U2"⟩)] (fun _ => true) (by decide)
    (some "Carol") ⟨"carol@x.com", some "U2"⟩ "U2" (by simp) rfl (by decide)

/-- C7: an email is in the result set exactly when the events request
succeeded and some event whose invitees request succeeded lists it; an
event whose invitees request fails contributes nothing and aborts
nothing. -/
theorem scheduled_emails_skip_failed_event (er : EventsResponse)
    (ir : String → InvResponse) (x : String) :
    x ∈ (get_scheduled_students er ir).1 ↔
      er.status = 200 ∧ ∃ ev ∈ er.events, (ir (lastSegment ev.uri)).status = 200 ∧
        ∃ e ∈ (ir (lastSegment ev.uri)).invitees, pyLower e = x :=
  mem_get_scheduled_students er ir x

/-- C9: the result set of get_scheduled_students depends only on the
response contents: permuting the event list and each invitee list leaves
the set unchanged. -/
theorem result_set_order_independent (er1 er2 : EventsResponse)
    (ir1 ir2 : String → InvResponse)
    (hst : er1.status = er2.status)
    (hev : er1.events.Perm er2.events)
    (hir : ∀ u, (ir1 u).status = (ir2 u).status ∧ (ir1 u).invitees.Perm (ir2 u).invitees) :
    (get_scheduled_students er1 ir1).1 = (get_scheduled_students er2 ir2).1 := by
  ext x
  rw [mem_get_scheduled_students, mem_get_scheduled_students]
  constructor
  · rintro ⟨h200, ev, hmem, hok, e, he, hx⟩
    refine ⟨hst ▸ h200, ev, hev.mem_iff.mp hmem, ?_, e, ((hir _).2).mem_iff.mp he, hx⟩
    rw [← (hir _).1]
    exact hok
  · rintro ⟨h200, ev, hmem, hok, e, he, hx⟩
    refine ⟨hst ▸ h200, ev, hev.mem_iff.mpr hmem, ?_, e, ((hir _).2).mem_iff.mpr he, hx⟩
    rw [(hir _).1]
    exact hok

theorem result_set_order_independent_witness :
    (get_scheduled_students ⟨200, [⟨"a/1"⟩, ⟨"a/2"⟩]⟩
        (fun u => if u = "1" then ⟨200, ["A@x.com"]⟩ else ⟨200, ["b@x.com"]⟩)).1 =
    (get_scheduled_students ⟨200, [⟨"a/2"⟩, ⟨"a/1"⟩]⟩
        (fun u => if u = "1" then ⟨200, ["A@x.com"]⟩ else ⟨200, ["b@x.com"]⟩)).1 :=
  result_set_order_independent _ _ _ _ rfl (List.Perm.swap _ _ _)
    (fun _ => ⟨rfl, List.Perm.refl _⟩)

/-- C2 counterexample: the numeric state notify_missing_students maintains
(and logs at completion) is the pair of sent and already-scheduled
counters; no function of that pair can recover the skipped_no_identity
counter the claim says the operation returns, because two rosters with
equal code counters have different specification triples. -/
theorem counters_cannot_encode_skipped :
    ¬ ∃ f : Nat × Nat → Nat × Nat × Nat,
      ∀ (roster : Roster) (sched : Finset String) (ntf : String → Bool),
        f (codeCounters (notify_missing_students roster sched ntf)) =
          notify_missing_spec roster sched ntf := by
  rintro ⟨f, hf⟩
  have h1 := hf [(some "Bob", ⟨"bob@x.com", none⟩)] ∅ (fun _ => true)
  have h2 := hf [] ∅ (fun _ => true)
  rw [show codeCounters (notify_missing_students [(some "Bob", ⟨"bob@x.com", none⟩)] ∅
        (fun _ => true)) = (0, 0) from by decide] at h1
  rw [show notify_missing_spec [(some "Bob", ⟨"bob@x.com", none⟩)] ∅ (fun _ => true) =
        (0, 0, 1) from by decide] at h1
  rw [show codeCounters (notify_missing_students [] ∅ (fun _ => true)) = (0, 0) from
        by decide] at h2
  rw [show notify_missing_spec [] ∅ (fun _ => true) = (0, 0, 0) from by decide] at h2
  have := h1.symm.trans h2
  simp at this

/-- C2 amended: every entry with an absent chat identity and an email
outside scheduled_emails is skipped with no notifier call and no state
change at all; the code maintains only the sent and already-scheduled
counters and returns no counter triple, so the scenario roster of Alice
and Bob with alice scheduled ends with sent 0, already-scheduled 1 and no
message. -/
theorem notify_no_identity_unchanged :
    (∀ (sched : Finset String) (ntf : String → Bool) (st : NotifyState)
        (k : Option String) (info : StudentInfo),
      info.email ∉ sched → falsy info.slack_id = true →
      processStudent sched ntf st (k, info) = st) ∧
    notify_missing_students
        [(some "Alice", ⟨"alice@x.com", some "U1"⟩), (some "Bob", ⟨"bob@x.com", none⟩)]
        {"alice@x.com"} (fun _ => true) =
      { notifications_sent := 0, students_already_scheduled := 1, msgs := [] } := by
  constructor
  · intro sched ntf st k info h1 h2
    exact processStudent_no_slack sched ntf st k info h1 h2
  · decide

theorem notify_no_identity_unchanged_witness :
    processStudent {"alice@x.com"} (fun _ => true) ⟨0, 0, []⟩
        (some "Bob", ⟨"bob@x.com", none⟩) = ⟨0, 0, []⟩ ∧
    notify_missing_students
        [(some "Alice", ⟨"alice@x.com", some "U1"⟩), (some "Bob", ⟨"bob@x.com", none⟩)]
        {"alice@x.com"} (fun _ => true) =
      { notifications_sent := 0, students_already_scheduled := 1, msgs := [] } :=
  ⟨notify_no_identity_unchanged.1 {"alice@x.com"} (fun _ => true) ⟨0, 0, []⟩
      (some "Bob") ⟨"bob@x.com", none⟩ (by decide) rfl,
   notify_no_identity_unchanged.2⟩

/-- C8 counterexample: with all four tokens present and STUDENTS_DATA
unset, the run exits with code 1 only after the chat-client constructor
has already issued its token-verification request, so one network call —
not zero — precedes the missing-roster exit. -/
theorem roster_missing_exits_after_network_call :
    runMain ⟨some "c", some "u", some "t", some "s", none⟩ true ⟨200, []⟩
        (fun _ => ⟨200, []⟩) (fun _ => true) = (1, 1, none) ∧ (1 : Nat) ≠ 0 :=
  ⟨by decide, by decide⟩

/-- C8 amended: a falsy token makes the run exit with code 1 before any
outbound HTTP call; with the tokens present but the roster data missing
or empty, the run still exits with code 1 before any scheduling or
notification call, but after the one token-verification call of the
chat-client constructor. -/
theorem config_failure_exit_paths (env : Env) (b : Bool) (er : EventsResponse)
    (ir : String → InvResponse) (ntf : String → Bool) :
    (falsy env.calendly_token = true ∨ falsy env.calendly_user_uri = true ∨
     falsy env.slack_bot_token = true ∨ falsy env.slack_signing_secret = true →
      runMain env b er ir ntf = (1, 0, none)) ∧
    (falsy env.calendly_token = false → falsy env.calendly_user_uri = false →
     falsy env.slack_bot_token = false → falsy env.slack_signing_secret = false →
     (env.students_data = none ∨ env.students_data = some "") →
      runMain env b er ir ntf = (1, 1, none)) := by
  constructor
  · intro h
    have hs : startup env b = .error 1 ∧ startupCalls env = 0 := by
      unfold startup startupCalls
      split_ifs with h1 h2 h3 h4 h5
      · exact ⟨rfl, rfl⟩
      · exact ⟨rfl, rfl⟩
      · exact ⟨rfl, rfl⟩
      · exact ⟨rfl, rfl⟩
      · exfalso
        rcases h with h | h | h | h
        · exact h1 h
        · exact h2 h
        · exact h3 h
        · exact h4 h
      · exfalso
        rcases h with h | h | h | h
        · exact h1 h
        · exact h2 h
        · exact h3 h
        · exact h4 h
    unfold runMain
    rw [hs.1, hs.2]
  · intro h1 h2 h3 h4 h5
    have hld : load_students env.students_data = [] := by
      rcases h5 with h | h
      · rw [h]
        rfl
      · rw [h]
        rfl
    have hs : startup env b = .error 1 := by
      unfold startup
      rw [h1, h2, h3, h4]
      simp only [Bool.false_eq_true, if_false]
      cases b
      · rfl
      · simp [hld]
    have hc : startupCalls env = 1 := by
      unfold startupCalls
      rw [h1, h2, h3, h4]
      simp
    unfold runMain
    rw [hs, hc]

theorem config_failure_exit_paths_witness :
    runMain ⟨none, some "u", some "t", some "s", some "x"⟩ true ⟨200, []⟩
        (fun _ => ⟨200, []⟩) (fun _ => true) = (1, 0, none) ∧
    runMain ⟨some "c", some "u", some "t", some "s", some ""⟩ true ⟨200, []⟩
        (fun _ => ⟨200, []⟩) (fun _ => true) = (1, 1, none) :=
  ⟨(config_failure_exit_paths ⟨none, some "u", some "t", some "s", some "x"⟩ true
      ⟨200, []⟩ (fun _ => ⟨200, []⟩) (fun _ => true)).1 (Or.inl (by decide)),
   (config_failure_exit_paths ⟨some "c", some "u", some "t", some "s", some ""⟩ true
      ⟨200, []⟩ (fun _ => ⟨200, []⟩) (fun _ => true)).2 (by decide) (by decide)
     (by decide) (by decide) (Or.inr rfl)⟩

/-- C5 counterexample: a blob of two well-formed rows on which the claim
fails twice over: the rows share a name so the mapping has one entry, not
two, and the second row has a present-but-empty slack column, stored as
the empty string rather than as an absent identity. -/
theorem load_students_claim_fails_concrete :
    wellFormedRow ["name", "email", "slack_id"] ["A", " X@a.com ", "U1"] = true ∧
    wellFormedRow ["name", "email", "slack_id"] ["A", "b@y.com", ""] = true ∧
    (parseCsv (unescape (unescape "name,email,slack_id\nA, X@a.com ,U1\nA,b@y.com,"))).rows =
      [["A", " X@a.com ", "U1"], ["A", "b@y.com", ""]] ∧
    load_students (some "name,email,slack_id\nA, X@a.com ,U1\nA,b@y.com,") =
      [(some "A", { email := "b@y.com", slack_id := some "" })] := by
  refine ⟨by decide, by decide, by decide, by decide⟩

/-- C5 amended: for a nonempty blob whose parsed rows are all well formed
and carry pairwise distinct name values, load_students returns one entry
per row: the size equals the row count and the entry stored under each
row name has the row email stripped and lower-cased, with the stripped
slack value (possibly empty) when the slack_id column is present and an
absent identity only when the column is missing. -/
theorem load_students_wellformed_distinct (blob : String) (hdr : List String)
    (rows : List (List String)) (hne : unescape blob ≠ "")
    (hp : parseCsv (unescape (unescape blob)) = ⟨hdr, rows⟩)
    (hwf : ∀ r ∈ rows, wellFormedRow hdr r = true)
    (hnd : (rows.map (rowKey hdr)).Nodup) :
    (load_students (some blob)).length = rows.length ∧
    ∀ r ∈ rows, dictLookup (load_students (some blob)) (rowKey hdr r) =
      some (toInfo hdr r) := by
  rw [load_students_eq_parse blob hdr rows hne hp]
  rw [parseRows_all_ok hdr rows [] hwf]
  have hfold : rows.foldl (fun m r => dictInsert m (rowKey hdr r) (toInfo hdr r)) [] =
      (rows.map (fun r => (rowKey hdr r, toInfo hdr r))).foldl
        (fun acc p => dictInsert acc p.1 p.2) [] := by
    rw [List.foldl_map]
  rw [hfold]
  have hkeys : (rows.map (fun r => (rowKey hdr r, toInfo hdr r))).map Prod.fst =
      rows.map (rowKey hdr) := by
    rw [List.map_map]
    rfl
  constructor
  · rw [length_foldl_insert_nil, hkeys, List.toFinset_card_of_nodup hnd]
    simp
  · intro r hr
    rw [dictLookup_foldl_insert]
    have hlv : lastVal (rows.map (fun r2 => (rowKey hdr r2, toInfo hdr r2))) (rowKey hdr r) =
        some (toInfo hdr r) :=
      lastVal_of_nodup (rows.map (fun r2 => (rowKey hdr r2, toInfo hdr r2))) (rowKey hdr r)
        (toInfo hdr r) (by rw [hkeys]; exact hnd)
        (List.mem_map_of_mem (fun r2 => (rowKey hdr r2, toInfo hdr r2)) hr)
    rw [hlv]

theorem load_students_wellformed_distinct_witness :
    (load_students (some "name,email,slack_id\nAlice, A@X.com ,U1\nBob,bob@y.com,U2")).length = 2 ∧
    dictLookup (load_students (some "name,email,slack_id\nAlice, A@X.com ,U1\nBob,bob@y.com,U2"))
        (rowKey ["name", "email", "slack_id"] ["Alice", " A@X.com ", "U1"]) =
      some (toInfo ["name", "email", "slack_id"] ["Alice", " A@X.com ", "U1"]) :=
  ⟨(load_students_wellformed_distinct
      "name,email,slack_id\nAlice, A@X.com ,U1\nBob,bob@y.com,U2"
      ["name", "email", "slack_id"]
      [["Alice", " A@X.com ", "U1"], ["Bob", "bob@y.com", "U2"]]
      (by decide) (by decide) (by decide) (by decide)).1,
   (load_students_wellformed_distinct
      "name,email,slack_id\nAlice, A@X.com ,U1\nBob,bob@y.com,U2"
      ["name", "email", "slack_id"]
      [["Alice", " A@X.com ", "U1"], ["Bob", "bob@y.com", "U2"]]
      (by decide) (by decide) (by decide) (by decide)).2
     ["Alice", " A@X.com ", "U1"] (by decide)⟩

/-- C6 counterexample: after the malformed row B the well-formed row C is
discarded rather than parsed, so load_students does not continue with the
remaining well-formed rows as the claim states. -/
theorem malformed_row_aborts_concrete :
    load_students (some "name,email,slack_id\nA,a@x.com,U1\nB\nC,c@x.com,U3") =
      [(some "A", { email := "a@x.com", slack_id := some "U1" })] ∧
    wellFormedRow ["name", "email", "slack_id"] ["C", "c@x.com", "U3"] = true ∧
    dictLookup (load_students (some "name,email,slack_id\nA,a@x.com,U1\nB\nC,c@x.com,U3"))
        (some "C") = none := by
  refine ⟨by decide, by decide, by decide⟩

/-- C6 amended: the first malformed row aborts the whole row loop of
load_students: the returned mapping is exactly the one built from the
well-formed rows preceding it, the malformed row and every row after it
are discarded, and no count of failed rows is produced anywhere in the
result. -/
theorem load_students_stops_at_malformed (blob : String) (hdr : List String)
    (good : List (List String)) (bad : List String) (rest : List (List String))
    (hne : unescape blob ≠ "")
    (hp : parseCsv (unescape (unescape blob)) = ⟨hdr, good ++ bad :: rest⟩)
    (hwf : ∀ r ∈ good, wellFormedRow hdr r = true)
    (hbad : wellFormedRow hdr bad = false) :
    load_students (some blob) = parseRows hdr [] good := by
  rw [load_students_eq_parse blob hdr (good ++ bad :: rest) hne hp]
  exact parseRows_stops hdr good bad rest [] hwf hbad

theorem load_students_stops_at_malformed_witness :
    load_students (some "name,email,slack_id\nA,a@x.com,U1\nB\nC,c@x.com,U3") =
      parseRows ["name", "email", "slack_id"] [] [["A", "a@x.com", "U1"]] :=
  load_students_stops_at_malformed
    "name,email,slack_id\nA,a@x.com,U1\nB\nC,c@x.com,U3"
    ["name", "email", "slack_id"] [["A", "a@x.com", "U1"]] ["B"]
    [["C", "c@x.com", "U3"]] (by decide) (by decide) (by decide) (by decide)

/-- C10 counterexample: rows one and three are well formed and share the
name A, yet the entry stored under A keeps the first row email, not the
later row email, because the malformed second row aborts parsing first. -/
theorem duplicate_name_claim_fails_concrete :
    wellFormedRow ["name", "email", "slack_id"] ["A", "a@x.com", "U1"] = true ∧
    wellFormedRow ["name", "email", "slack_id"] ["A", "b@y.com", "U2"] = true ∧
    (parseCsv (unescape (unescape "name,email,slack_id\nA,a@x.com,U1\nB\nA,b@y.com,U2"))).rows =
      [["A", "a@x.com", "U1"], ["B"], ["A", "b@y.com", "U2"]] ∧
    load_students (some "name,email,slack_id\nA,a@x.com,U1\nB\nA,b@y.com,U2") =
      [(some "A", { email := "a@x.com", slack_id := some "U1" })] ∧
    ("a@x.com" : String) ≠ "b@y.com" := by
  refine ⟨by decide, by decide, by decide, by decide, by decide⟩

/-- C10 amended: when every parsed row is well formed and some name value
repeats, load_students keeps a single entry per distinct name, so the
mapping is strictly smaller than the row count, and the entry found under
any key is the record of the last row carrying that name. -/
theorem duplicate_names_last_wins (blob : String) (hdr : List String)
    (rows : List (List String)) (hne : unescape blob ≠ "")
    (hp : parseCsv (unescape (unescape blob)) = ⟨hdr, rows⟩)
    (hwf : ∀ r ∈ rows, wellFormedRow hdr r = true)
    (hdup : ¬ (rows.map (rowKey hdr)).Nodup) :
    (load_students (some blob)).length < rows.length ∧
    ∀ k : Option String, dictLookup (load_students (some blob)) k =
      lastVal (rows.map (fun r => (rowKey hdr r, toInfo hdr r))) k := by
  rw [load_students_eq_parse blob hdr rows hne hp]
  rw [parseRows_all_ok hdr rows [] hwf]
  have hfold : rows.foldl (fun m r => dictInsert m (rowKey hdr r) (toInfo hdr r)) [] =
      (rows.map (fun r => (rowKey hdr r, toInfo hdr r))).foldl
        (fun acc p => dictInsert acc p.1 p.2) [] := by
    rw [List.foldl_map]
  rw [hfold]
  have hkeys : (rows.map (fun r => (rowKey hdr r, toInfo hdr r))).map Prod.fst =
      rows.map (rowKey hdr) := by
    rw [List.map_map]
    rfl
  constructor
  · rw [length_foldl_insert_nil, hkeys, List.card_toFinset]
    have hlt := dedup_length_lt (rows.map (rowKey hdr)) hdup
    have hlen : (rows.map (rowKey hdr)).length = rows.length := by simp
    omega
  · intro k
    rw [dictLookup_foldl_insert]
    cases hl : lastVal (rows.map (fun r => (rowKey hdr r, toInfo hdr r))) k with
    | some v => rfl
    | none => rfl

theorem duplicate_names_last_wins_witness :
    (load_students (some "name,email,slack_id\nA,a@x.com,U1\nB,b@x.com,U2\nA,c@x.com,U3")).length < 3 ∧
    dictLookup (load_students
        (some "name,email,slack_id\nA,a@x.com,U1\nB,b@x.com,U2\nA,c@x.com,U3")) (some "A") =
      lastVal (([["A", "a@x.com", "U1"], ["B", "b@x.com", "U2"], ["A", "c@x.com", "U3"]] :
          List (List String)).map
        (fun r => (rowKey ["name", "email", "slack_id"] r,
          toInfo ["name", "email", "slack_id"] r))) (some "A") :=
  ⟨(duplicate_names_last_wins
      "name,email,slack_id\nA,a@x.com,U1\nB,b@x.com,U2\nA,c@x.com,U3"
      ["name", "email", "slack_id"]
      [["A", "a@x.com", "U1"], ["B", "b@x.com", "U2"], ["A", "c@x.com", "U3"]]
      (by decide) (by decide) (by decide) (by decide)).1,
   (duplicate_names_last_wins
      "name,email,slack_id\nA,a@x.com,U1\nB,b@x.com,U2\nA,c@x.com,U3"
      ["name", "email", "slack_id"]
      [["A", "a@x.com", "U1"], ["B", "b@x.com", "U2"], ["A", "c@x.com", "U3"]]
      (by decide) (by decide) (by decide) (by decide)).2 (some "A")⟩

end AutoRemind
